import Mathlib

/-!
Verification development for the MoodSync scoring-aggregation-forecasting
pipeline.  The repository ships the pipeline as a specification (§4 of
spec.md) together with a mock React frontend (`frontend/src/utils/apiClient.js`);
the pipeline components themselves (Score Normalizer, Ensemble Combiner,
Daily Aggregator, Forecaster, Pipeline Coordinator) are not present as code,
so they are modelled here from the specification text.  Real numbers of the
spec are modelled as rationals (ℚ) so every definition is executable; the
standard deviation used by the anomaly check is handled through its square
to stay in exact arithmetic.
-/

namespace MoodSync

/-- Modelled from the spec: the fixed emotion-category set of §3
(EstimatorOutput): joy, sadness, anger, fear, surprise, disgust, optimism,
love. -/
inductive Emotion
  | joy | sadness | anger | fear | surprise | disgust | optimism | love
deriving DecidableEq, Repr

/-- Modelled from the spec: the tie-break priority of §4.3 Daily Aggregator,
"joy > optimism > love > surprise > calm/neutral > sadness > fear > disgust >
anger", restricted to the eight fixed categories (calm/neutral is not one of
them); smaller rank means higher priority. -/
def priorityRank : Emotion → ℕ
  | .joy => 0 | .optimism => 1 | .love => 2 | .surprise => 3
  | .sadness => 4 | .fear => 5 | .disgust => 6 | .anger => 7

/-- Modelled from the spec: the rank of a category in the fixed listed order
of §3, "joy, sadness, anger, fear, surprise, disgust, optimism, love"; used
only to compare the data-model tie-break wording with the §4.3 priority
order. -/
def listedRank : Emotion → ℕ
  | .joy => 0 | .sadness => 1 | .anger => 2 | .fear => 3
  | .surprise => 4 | .disgust => 5 | .optimism => 6 | .love => 7

/-- Modelled from the spec: the common per-estimator schema of §3
EstimatorOutput — a polarity scalar in [-1,1] (none = abstention), a partial
mapping from emotion category to intensity in [0,1], and a confidence scalar
in [0,1].  Estimator identifier and version are omitted: no verified claim
mentions them. -/
structure EstimatorOutput where
  polarity : Option ℚ
  confidence : ℚ
  emotions : List (Emotion × ℚ)
deriving DecidableEq, Repr

/-- Sum of value·weight over a list of (value, weight) pairs. -/
def wsum (l : List (ℚ × ℚ)) : ℚ := (l.map fun x => x.1 * x.2).sum

/-- Sum of the weights of a list of (value, weight) pairs. -/
def wtotal (l : List (ℚ × ℚ)) : ℚ := (l.map fun x => x.2).sum

/-- Weighted mean of a list of (value, weight) pairs (0 when the weights sum
to 0, by the convention x / 0 = 0 of ℚ). -/
def weightedMean (l : List (ℚ × ℚ)) : ℚ := wsum l / wtotal l

/-- Weighted population variance of a list of (value, weight) pairs about its
weighted mean. -/
def weightedVar (l : List (ℚ × ℚ)) : ℚ :=
  (l.map fun x => x.2 * (x.1 - weightedMean l) ^ 2).sum / wtotal l

/-- Modelled from the spec: the per-track derived record of §3 TrackScore —
combined polarity (none and `neutralUnscored` when every estimator
abstained), combined emotion vector, and the per-estimator agreement metric.
Valence-arousal point and timestamp are omitted: no verified claim mentions
them. -/
structure TrackScore where
  combinedPolarity : Option ℚ
  neutralUnscored : Bool
  emotions : List (Emotion × ℚ)
  agreement : ℚ
deriving DecidableEq, Repr

/-- Intensity an estimator (or a combined emotion vector) exposes for a
category, none when the category is absent. -/
def lookupEmotion (es : List (Emotion × ℚ)) (c : Emotion) : Option ℚ :=
  (es.find? fun p => decide (p.1 = c)).map fun p => p.2

/-- The fixed category enumeration (listed order of §3). -/
def allCategories : List Emotion :=
  [.joy, .sadness, .anger, .fear, .surprise, .disgust, .optimism, .love]

/-- Modelled from the spec: §4.2 step 3 — combined emotion vector is the
per-category confidence-weighted mean across the estimators that expose the
category; categories with zero contributing estimators are left out (null),
not zero. -/
def combinedEmotions (ests : List EstimatorOutput) : List (Emotion × ℚ) :=
  allCategories.filterMap fun c =>
    let contrib := ests.filterMap fun e =>
      (lookupEmotion e.emotions c).map fun v => (v, e.confidence)
    if contrib.isEmpty then none else some (c, weightedMean contrib)

/-- Failure of the Ensemble Combiner (§4.2): empty estimator list. -/
inductive CombineError
  | insufficientSignal
deriving DecidableEq, Repr

/-- The (polarity, confidence) pairs of the estimators that do not abstain. -/
def nonAbstaining (ests : List EstimatorOutput) : List (ℚ × ℚ) :=
  ests.filterMap fun e => e.polarity.map fun p => (p, e.confidence)

/-- Modelled from the spec: §4.2 Ensemble Combiner, `combine`.  Empty
estimator list fails with InsufficientSignalError; combined polarity is the
confidence-weighted mean of the non-abstaining polarities, or null with the
`neutral_unscored` flag when all abstain (never defaulted to 0); agreement is
1 − the normalized variance of the non-abstaining polarities (polarity range
[-1,1] has maximal variance 1, so the variance is its own normalization). -/
def combine (ests : List EstimatorOutput) : Except CombineError TrackScore :=
  if ests.isEmpty then .error .insufficientSignal
  else
    let pw := nonAbstaining ests
    .ok { combinedPolarity := if pw.isEmpty then none else some (weightedMean pw)
          neutralUnscored := pw.isEmpty
          emotions := combinedEmotions ests
          agreement := 1 - weightedVar pw }

/-- Modelled from the spec: the per-(user, day) derived record of §3
DailyMood — mood index in [-1,1], dominant emotion, contributing-track count.
Top-N emotional drivers are omitted: no verified claim mentions them. -/
structure DailyMood where
  moodIndex : ℚ
  dominantEmotion : Option Emotion
  contributingTrackCount : ℕ
deriving DecidableEq, Repr

/-- The (polarity, listen_weight) pairs of the listens whose TrackScore is
scored (combined polarity not null, i.e. not `neutral_unscored`). -/
def scoredListens (xs : List (TrackScore × ℚ)) : List (ℚ × ℚ) :=
  xs.filterMap fun x => x.1.combinedPolarity.map fun p => (p, x.2)

/-- Modelled from the spec: §4.3 — the listen_weight-weighted mean intensity
of one category across the day's tracks that expose it; none when no track
exposes the category. -/
def dayIntensity (xs : List (TrackScore × ℚ)) (c : Emotion) : Option ℚ :=
  let contrib := xs.filterMap fun x =>
    (lookupEmotion x.1.emotions c).map fun v => (v, x.2)
  if contrib.isEmpty then none else some (weightedMean contrib)

/-- Selection of the dominant category from an enumeration: keep the
candidate with the strictly higher day intensity, and on an exact intensity
tie the one with the smaller §4.3 priority rank. -/
def pickDominant (xs : List (TrackScore × ℚ)) : List Emotion → Option (Emotion × ℚ)
  | [] => none
  | c :: rest =>
    match pickDominant xs rest, dayIntensity xs c with
    | r, none => r
    | none, some v => some (c, v)
    | some (b, bv), some v =>
      if bv < v ∨ (bv = v ∧ priorityRank c < priorityRank b) then some (c, v)
      else some (b, bv)

/-- Modelled from the spec: §4.3 — dominant emotion is the category with the
highest weighted-mean intensity across the day's tracks, ties broken by the
fixed priority order. -/
def dominantEmotion (xs : List (TrackScore × ℚ)) : Option Emotion :=
  (pickDominant xs allCategories).map fun p => p.1

/-- Second definition, following the §3 data-model wording only: ties among
maximal-intensity categories broken by the earliest-listed category in the
fixed category order (joy, sadness, anger, fear, surprise, disgust, optimism,
love); kept separate so it can be compared with `dominantEmotion`. -/
def pickDominantListed (xs : List (TrackScore × ℚ)) : List Emotion → Option (Emotion × ℚ)
  | [] => none
  | c :: rest =>
    match pickDominantListed xs rest, dayIntensity xs c with
    | r, none => r
    | none, some v => some (c, v)
    | some (b, bv), some v =>
      if bv < v ∨ (bv = v ∧ listedRank c < listedRank b) then some (c, v)
      else some (b, bv)

/-- Dominant emotion under the §3 earliest-listed tie-break wording. -/
def dominantEmotionListed (xs : List (TrackScore × ℚ)) : Option Emotion :=
  (pickDominantListed xs allCategories).map fun p => p.1

/-- Modelled from the spec: §4.3 Daily Aggregator, `aggregate`.  Mood index
is the listen_weight-weighted mean of combined polarity over the scored
listens, excluding `neutral_unscored` tracks from the mean but counting every
listen toward `contributing_track_count`; with zero scored listens no
DailyMood is created (none), never a record with index 0. -/
def aggregate (xs : List (TrackScore × ℚ)) : Option DailyMood :=
  let pw := scoredListens xs
  if pw.isEmpty then none
  else some { moodIndex := weightedMean pw
              dominantEmotion := dominantEmotion xs
              contributingTrackCount := xs.length }

/-- Failure of the Forecaster (§4.4): history below the minimum length. -/
inductive ForecastError
  | insufficientHistory
deriving DecidableEq, Repr

/-- Modelled from the spec: §4.4 — per-(user, issue-day) forecast output:
point estimate, [low, high] interval, anomaly flag for the issue day, and the
baseline window statistics used.  The anomaly magnitude is carried by the
baseline fields (mean and variance) in exact arithmetic. -/
structure ForecastResult where
  point : ℚ
  lo : ℚ
  hi : ℚ
  anomalyFlag : Bool
  baselineMean : ℚ
  baselineVar : ℚ
  windowLen : ℕ
deriving DecidableEq, Repr

/-- Default minimum history length of §4.4 (14 days of DailyMood). -/
def minHistoryDays : ℕ := 14

/-- Default trailing baseline window of §4.4 (30 days). -/
def baselineWindowDays : ℕ := 30

/-- Default anomaly threshold multiple of §4.4 (2 standard deviations). -/
def anomalyThreshold : ℚ := 2

/-- Arithmetic mean of a list of rationals (0 on the empty list). -/
def listMean (l : List ℚ) : ℚ := l.sum / l.length

/-- Population variance of a list of rationals (0 on the empty list). -/
def listVar (l : List ℚ) : ℚ :=
  (l.map fun x => (x - listMean l) ^ 2).sum / l.length

/-- Modelled from the spec: §4.4 — the mood-index series of the trailing
baseline window: the last up-to-30 records strictly before the issue day
(the issue day itself is excluded — no look-ahead leakage). -/
def baselineSeries (history : List DailyMood) : List ℚ :=
  (history.dropLast.reverse.take baselineWindowDays).map DailyMood.moodIndex

/-- Rolling mean of the baseline window of a history. -/
def baselineMean (history : List DailyMood) : ℚ := listMean (baselineSeries history)

/-- Rolling population variance of the baseline window of a history. -/
def baselineVar (history : List DailyMood) : ℚ := listVar (baselineSeries history)

/-- Modelled from the spec: §4.4 Forecaster, `forecast_next`.  Fails with
InsufficientHistoryError below 14 records; otherwise issues a ForecastResult
whose point estimate is a damped extrapolation from the baseline mean (the
model family is left pluggable by the spec) and whose anomaly flag is true
exactly when |today − rolling mean| exceeds 2 rolling standard deviations,
stated in squared form ((today − mean)² > 2²·variance) to stay in ℚ; the
rolling statistics exclude the issue day. -/
def forecast_next (history : List DailyMood) : Except ForecastError ForecastResult :=
  if history.length < minHistoryDays then .error .insufficientHistory
  else
    match history.getLast? with
    | none => .error .insufficientHistory
    | some today =>
      let m := baselineMean history
      let v := baselineVar history
      let pt := m + (today.moodIndex - m) / 2
      .ok { point := pt
            lo := pt - anomalyThreshold * v
            hi := pt + anomalyThreshold * v
            anomalyFlag := decide ((today.moodIndex - m) ^ 2 > anomalyThreshold ^ 2 * v)
            baselineMean := m
            baselineVar := v
            windowLen := (baselineSeries history).length }

/-- Modelled from the spec: §4.1 — the three-class sentiment label of a
classifier estimator. -/
inductive SentLabel
  | positive | neutral | negative
deriving DecidableEq, Repr

/-- Modelled from the spec: §4.1 — the fixed label→polarity table
(positive/neutral/negative → {+1, 0, -1}). -/
def labelPolarity : SentLabel → ℚ
  | .positive => 1
  | .neutral => 0
  | .negative => -1

/-- One entry of a classifier distribution; a `none` field models a missing
required field of the raw payload. -/
structure LabelProb where
  label : Option SentLabel
  prob : Option ℚ
deriving DecidableEq, Repr

/-- Modelled from the spec: §4.1 — the estimator-specific raw payload: a
scalar polarity for rule-based estimators, a label+probability distribution
for classifier estimators, independent per-category probabilities for
emotion classifiers. -/
inductive RawPayload
  | rulePolarity (p : Option ℚ)
  | classifier (dist : List LabelProb)
  | emotionVector (intensities : List (Emotion × ℚ))
deriving DecidableEq, Repr

/-- Failure of the Score Normalizer (§4.1): malformed payload. -/
inductive NormError
  | normalizationError
deriving DecidableEq, Repr

/-- Clip a rational into [0, 1]. -/
def clip01 (x : ℚ) : ℚ := max 0 (min 1 x)

/-- Well-formedness of one classifier-distribution entry: both required
fields present and the probability inside [0, 1]. -/
def wellFormedEntry (e : LabelProb) : Bool :=
  e.label.isSome &&
    match e.prob with
    | some q => decide (0 ≤ q ∧ q ≤ 1)
    | none => false

/-- Modelled from the spec: §4.1 Score Normalizer, `normalize`.  Rule-based
polarity passes through unchanged; classifier distributions map through the
fixed label→polarity table weighted by per-label probability; emotion vectors
pass through clipped to [0,1].  A malformed payload (missing required field,
probability outside [0,1]) signals a NormalizationError. -/
def normalize : RawPayload → Except NormError EstimatorOutput
  | .rulePolarity none => .error .normalizationError
  | .rulePolarity (some p) => .ok { polarity := some p, confidence := 1, emotions := [] }
  | .classifier dist =>
    if dist.all wellFormedEntry then
      .ok { polarity :=
              some ((dist.map fun e => e.prob.getD 0 * labelPolarity (e.label.getD .neutral)).sum)
            confidence := 1
            emotions := [] }
    else .error .normalizationError
  | .emotionVector l =>
    .ok { polarity := none, confidence := 1, emotions := l.map fun p => (p.1, clip01 p.2) }

/-- The contribution of an estimator that had to be dropped: a pure
abstention. -/
def abstainOutput : EstimatorOutput := { polarity := none, confidence := 0, emotions := [] }

/-- Modelled from the spec: §4.1 error condition — a NormalizationError is
recovered locally by treating that estimator's contribution as abstention
(null), not as a pipeline failure. -/
def normalizeOrAbstain (r : RawPayload) : EstimatorOutput :=
  match normalize r with
  | .ok e => e
  | .error _ => abstainOutput

/-- Modelled from the spec: §6 — `score_track`: normalize each raw estimator
payload (degrading malformed ones to abstention) and combine the results
into one TrackScore. -/
def score_track (raws : List RawPayload) : Except CombineError TrackScore :=
  combine (raws.map normalizeOrAbstain)

/-- Primary key of a persisted TrackScore: one per (track,
user-listening-context, model-ensemble-version) per §3. -/
structure ScoreKey where
  track : String
  context : String
  ensembleVersion : String
deriving DecidableEq, Repr

/-- Modelled from the spec: §6 persistence — put/overwrite of a TrackScore by
primary key: the new row replaces any row with the same key. -/
def putScore (store : List (ScoreKey × TrackScore)) (k : ScoreKey) (ts : TrackScore) :
    List (ScoreKey × TrackScore) :=
  (k, ts) :: store.filter fun e => decide (e.1 ≠ k)

/-- Read of a TrackScore by primary key. -/
def lookupScore (store : List (ScoreKey × TrackScore)) (k : ScoreKey) : Option TrackScore :=
  (store.find? fun e => decide (e.1 = k)).map fun e => e.2

/-- Number of rows a store holds under one primary key. -/
def countKey (store : List (ScoreKey × TrackScore)) (k : ScoreKey) : ℕ :=
  (store.filter fun e => decide (e.1 = k)).length

/-- Modelled from the spec: §5 — one scoring job of the Pipeline
Coordinator: score the track and persist the result by overwrite; a failed
combine persists nothing. -/
def runScoreJob (store : List (ScoreKey × TrackScore)) (k : ScoreKey)
    (raws : List RawPayload) : List (ScoreKey × TrackScore) :=
  match score_track raws with
  | .ok ts => putScore store k ts
  | .error _ => store

/-- Response shape of `fetchHealth` in frontend/src/utils/apiClient.js. -/
structure HealthStatus where
  status : String
  service : String
  version : String
deriving DecidableEq, Repr

/-- Embeds `fetchHealth` of frontend/src/utils/apiClient.js: returns the
fixed mock health object. -/
def fetchHealth : HealthStatus :=
  { status := "healthy", service := "MoodSync API (mock)", version := "v1" }

/-- Row shape of `fetchRecentTracks` in frontend/src/utils/apiClient.js. -/
structure RecentTrack where
  id : ℕ
  title : String
  artist : String
  mood : String
  score : ℚ
deriving DecidableEq, Repr

/-- Embeds `fetchRecentTracks` of frontend/src/utils/apiClient.js: returns
the three hard-coded tracks. -/
def fetchRecentTracks : List RecentTrack :=
  [ { id := 1, title := "Track A", artist := "Artist 1", mood := "Happy", score := 82/100 },
    { id := 2, title := "Track B", artist := "Artist 2", mood := "Melancholic", score := 41/100 },
    { id := 3, title := "Track C", artist := "Artist 3", mood := "Energetic", score := 73/100 } ]

/-- Row shape of `fetchInsightsTimeline` in frontend/src/utils/apiClient.js. -/
structure TimelinePoint where
  day : String
  mood : String
  score : ℚ
deriving DecidableEq, Repr

/-- Embeds `fetchInsightsTimeline` of frontend/src/utils/apiClient.js:
returns the fixed five-day timeline. -/
def fetchInsightsTimeline : List TimelinePoint :=
  [ { day := "Mon", mood := "Calm", score := 6/10 },
    { day := "Tue", mood := "Happy", score := 8/10 },
    { day := "Wed", mood := "Stressed", score := 3/10 },
    { day := "Thu", mood := "Balanced", score := 7/10 },
    { day := "Fri", mood := "Excited", score := 9/10 } ]

section WeightedMeanLemmas

theorem wtotal_nonneg (l : List (ℚ × ℚ)) (hw : ∀ x ∈ l, 0 ≤ x.2) : 0 ≤ wtotal l := by
  unfold wtotal
  apply List.sum_nonneg
  intro a ha
  obtain ⟨x, hx, rfl⟩ := List.mem_map.mp ha
  exact hw x hx

theorem wsum_le (l : List (ℚ × ℚ)) (b : ℚ) (hv : ∀ x ∈ l, x.1 ≤ b)
    (hw : ∀ x ∈ l, 0 ≤ x.2) : wsum l ≤ b * wtotal l := by
  induction l with
  | nil => simp [wsum, wtotal]
  | cons a t ih =>
    have h1 : a.1 * a.2 ≤ b * a.2 :=
      mul_le_mul_of_nonneg_right (hv a (List.mem_cons_self a t)) (hw a (List.mem_cons_self a t))
    have h2 := ih (fun x hx => hv x (List.mem_cons_of_mem a hx))
      (fun x hx => hw x (List.mem_cons_of_mem a hx))
    simp only [wsum, wtotal, List.map_cons, List.sum_cons] at h2 ⊢
    have : b * (a.2 + (t.map fun x => x.2).sum) =
        b * a.2 + b * (t.map fun x => x.2).sum := by ring
    rw [this]
    exact add_le_add h1 h2

theorem le_wsum (l : List (ℚ × ℚ)) (a : ℚ) (hv : ∀ x ∈ l, a ≤ x.1)
    (hw : ∀ x ∈ l, 0 ≤ x.2) : a * wtotal l ≤ wsum l := by
  induction l with
  | nil => simp [wsum, wtotal]
  | cons p t ih =>
    have h1 : a * p.2 ≤ p.1 * p.2 :=
      mul_le_mul_of_nonneg_right (hv p (List.mem_cons_self p t)) (hw p (List.mem_cons_self p t))
    have h2 := ih (fun x hx => hv x (List.mem_cons_of_mem p hx))
      (fun x hx => hw x (List.mem_cons_of_mem p hx))
    simp only [wsum, wtotal, List.map_cons, List.sum_cons] at h2 ⊢
    have : a * (p.2 + (t.map fun x => x.2).sum) =
        a * p.2 + a * (t.map fun x => x.2).sum := by ring
    rw [this]
    exact add_le_add h1 h2

theorem weightedMean_bounds (l : List (ℚ × ℚ)) (a b : ℚ)
    (hv : ∀ x ∈ l, a ≤ x.1 ∧ x.1 ≤ b) (hw : ∀ x ∈ l, 0 ≤ x.2)
    (ha : a ≤ 0) (hb : 0 ≤ b) :
    a ≤ weightedMean l ∧ weightedMean l ≤ b := by
  unfold weightedMean
  rcases eq_or_lt_of_le (wtotal_nonneg l hw) with h0 | hpos
  · rw [← h0, div_zero]
    exact ⟨ha, hb⟩
  · constructor
    · rw [le_div_iff₀ hpos]
      exact le_wsum l a (fun x hx => (hv x hx).1) hw
    · rw [div_le_iff₀ hpos]
      exact wsum_le l b (fun x hx => (hv x hx).2) hw

theorem sq_dev_sum_eq (l : List (ℚ × ℚ)) (c : ℚ) :
    (l.map fun x => x.2 * (x.1 - c) ^ 2).sum =
      (l.map fun x => x.2 * x.1 ^ 2).sum - 2 * c * wsum l + c ^ 2 * wtotal l := by
  induction l with
  | nil => simp [wsum, wtotal]
  | cons p t ih =>
    simp only [wsum, wtotal, List.map_cons, List.sum_cons] at ih ⊢
    rw [ih]
    ring

theorem sq_sum_le_wtotal (l : List (ℚ × ℚ)) (hv : ∀ x ∈ l, x.1 ^ 2 ≤ 1)
    (hw : ∀ x ∈ l, 0 ≤ x.2) : (l.map fun x => x.2 * x.1 ^ 2).sum ≤ wtotal l := by
  induction l with
  | nil => simp [wtotal]
  | cons p t ih =>
    have h1 : p.2 * p.1 ^ 2 ≤ p.2 := by
      have := mul_le_mul_of_nonneg_left (hv p (List.mem_cons_self p t))
        (hw p (List.mem_cons_self p t))
      simpa using this
    have h2 := ih (fun x hx => hv x (List.mem_cons_of_mem p hx))
      (fun x hx => hw x (List.mem_cons_of_mem p hx))
    simp only [wtotal, List.map_cons, List.sum_cons] at h2 ⊢
    exact add_le_add h1 h2

theorem sq_dev_sum_nonneg (l : List (ℚ × ℚ)) (hw : ∀ x ∈ l, 0 ≤ x.2) (c : ℚ) :
    0 ≤ (l.map fun x => x.2 * (x.1 - c) ^ 2).sum := by
  apply List.sum_nonneg
  intro a ha
  obtain ⟨x, hx, rfl⟩ := List.mem_map.mp ha
  exact mul_nonneg (hw x hx) (sq_nonneg _)

theorem weightedVar_nonneg (l : List (ℚ × ℚ)) (hw : ∀ x ∈ l, 0 ≤ x.2) :
    0 ≤ weightedVar l := by
  unfold weightedVar
  rcases eq_or_lt_of_le (wtotal_nonneg l hw) with h0 | hpos
  · rw [← h0, div_zero]
  · exact div_nonneg (sq_dev_sum_nonneg l hw _) (le_of_lt hpos)

theorem weightedVar_le_one (l : List (ℚ × ℚ)) (hv : ∀ x ∈ l, -1 ≤ x.1 ∧ x.1 ≤ 1)
    (hw : ∀ x ∈ l, 0 ≤ x.2) : weightedVar l ≤ 1 := by
  unfold weightedVar
  rcases eq_or_lt_of_le (wtotal_nonneg l hw) with h0 | hpos
  · rw [← h0, div_zero]
    norm_num
  · rw [div_le_one hpos, sq_dev_sum_eq l (weightedMean l)]
    have hmean : weightedMean l * wtotal l = wsum l := by
      unfold weightedMean
      field_simp
    have hsq : (l.map fun x => x.2 * x.1 ^ 2).sum ≤ wtotal l := by
      apply sq_sum_le_wtotal l _ hw
      intro x hx
      have h1 := (hv x hx).1
      have h2 := (hv x hx).2
      nlinarith
    have h3 : 0 ≤ weightedMean l ^ 2 * wtotal l :=
      mul_nonneg (sq_nonneg _) (le_of_lt hpos)
    rw [← hmean]
    have h4 : (l.map fun x => x.2 * x.1 ^ 2).sum -
        2 * weightedMean l * (weightedMean l * wtotal l) + weightedMean l ^ 2 * wtotal l =
        (l.map fun x => x.2 * x.1 ^ 2).sum - weightedMean l ^ 2 * wtotal l := by
      ring
    rw [h4]
    linarith

end WeightedMeanLemmas

theorem listVar_nonneg (l : List ℚ) : 0 ≤ listVar l := by
  unfold listVar
  apply div_nonneg
  · apply List.sum_nonneg
    intro a ha
    obtain ⟨x, _, rfl⟩ := List.mem_map.mp ha
    exact sq_nonneg _
  · exact_mod_cast Nat.zero_le l.length

/-- C10: the only implemented data-access operations of the program — the
mock frontend API client — are constant functions: `fetchHealth` returns the
fixed health object, `fetchRecentTracks` the same three hard-coded tracks
with scores 0.82, 0.41, 0.73, `fetchInsightsTimeline` the same five-day
timeline with every score in [0,1]; none of them can return an error or an
empty result (their types admit neither). -/
theorem apiClient_constant_mock :
    fetchHealth = { status := "healthy", service := "MoodSync API (mock)", version := "v1" } ∧
    fetchRecentTracks.map RecentTrack.score = [82/100, 41/100, 73/100] ∧
    fetchRecentTracks.length = 3 ∧
    fetchRecentTracks ≠ [] ∧
    fetchInsightsTimeline.map TimelinePoint.score = [6/10, 8/10, 3/10, 7/10, 9/10] ∧
    fetchInsightsTimeline.length = 5 ∧
    fetchInsightsTimeline ≠ [] ∧
    ((fetchInsightsTimeline.map TimelinePoint.score).all
      fun s => decide (0 ≤ s) && decide (s ≤ 1)) = true := by
  refine ⟨rfl, rfl, rfl, by simp [fetchRecentTracks], rfl, rfl,
    by simp [fetchInsightsTimeline], ?_⟩
  simp only [fetchInsightsTimeline, List.map_cons, List.map_nil, List.all_cons, List.all_nil]
  norm_num

/-- C6: a DailyMood record exists iff at least one non-abstained TrackScore
exists for the (user, day): `aggregate` returns none exactly when every
listen's combined polarity is null, so zero scored listens never yield a
record (in particular never one with mood index 0). -/
theorem daily_mood_absent_iff_no_scored (xs : List (TrackScore × ℚ)) :
    aggregate xs = none ↔ ∀ x ∈ xs, x.1.combinedPolarity = none := by
  unfold aggregate
  constructor
  · intro h
    by_cases he : (scoredListens xs).isEmpty
    · intro x hx
      have : scoredListens xs = [] := List.isEmpty_iff.mp he
      unfold scoredListens at this
      rw [List.filterMap_eq_nil_iff] at this
      have hx2 := this x hx
      exact Option.map_eq_none'.mp hx2
    · simp only [he, if_neg, Bool.false_eq_true, not_false_eq_true, if_false] at h
      exact absurd h (by simp)
  · intro h
    have : scoredListens xs = [] := by
      unfold scoredListens
      rw [List.filterMap_eq_nil_iff]
      intro x hx
      rw [h x hx]
      rfl
    simp [this]

/-- C1: for every aggregation input containing at least one scored listen,
`aggregate` returns a DailyMood whose mood index is the listen_weight-weighted
mean of the combined polarities of the scored listens only (tracks flagged
neutral_unscored contribute nothing to the mean) while
`contributingTrackCount` counts every listen, unscored ones included.  The
spec's example instance {+0.8, w=2}, {-0.2, w=1}, {unscored} — mood index
(0.8·2 + (-0.2)·1)/3 = 7/15 (0.467 after rounding), count 3 — is the
witness. -/
theorem aggregate_weighted_mean (xs : List (TrackScore × ℚ))
    (h : scoredListens xs ≠ []) :
    aggregate xs = some { moodIndex := weightedMean (scoredListens xs)
                          dominantEmotion := dominantEmotion xs
                          contributingTrackCount := xs.length } := by
  unfold aggregate
  simp [List.isEmpty_iff, h]

/-- C1 witness: the spec's three-track example evaluates to mood index
(0.8·2 + (-0.2)·1)/(2+1) = 7/15 with contributing-track count 3. -/
theorem aggregate_weighted_mean_witness :
    aggregate
      [ ({ combinedPolarity := some (8/10), neutralUnscored := false,
           emotions := [], agreement := 1 }, 2),
        ({ combinedPolarity := some (-2/10), neutralUnscored := false,
           emotions := [], agreement := 1 }, 1),
        ({ combinedPolarity := none, neutralUnscored := true,
           emotions := [], agreement := 1 }, 1) ] =
      some { moodIndex := 7/15, dominantEmotion := none, contributingTrackCount := 3 } ∧
    ((8:ℚ)/10 * 2 + (-2/10) * 1) / (2 + 1) = 7/15 := by
  constructor
  · rw [aggregate_weighted_mean _ (by simp [scoredListens])]
    simp only [scoredListens, weightedMean, wsum, wtotal, dominantEmotion, pickDominant,
      dayIntensity, lookupEmotion, allCategories, List.filterMap_cons, List.filterMap_nil,
      Option.map_some', Option.map_none', List.map_cons, List.map_nil, List.sum_cons,
      List.sum_nil, List.find?_nil, List.isEmpty_nil]
    norm_num
  · norm_num

/-- C5: a track whose estimators all abstain gets a TrackScore with null
combined polarity and the `neutral_unscored` flag (never a polarity defaulted
to 0), while a track with at least one non-abstaining estimator gets the
confidence-weighted mean of the non-abstaining polarities and no flag. -/
theorem combine_abstention_policy (ests : List EstimatorOutput) (h : ests ≠ []) :
    ∃ ts, combine ests = .ok ts ∧
      ((∀ e ∈ ests, e.polarity = none) →
        ts.combinedPolarity = none ∧ ts.neutralUnscored = true) ∧
      ((∃ e ∈ ests, e.polarity ≠ none) →
        ts.combinedPolarity = some (weightedMean (nonAbstaining ests)) ∧
        ts.neutralUnscored = false) := by
  unfold combine
  rw [if_neg (by simpa [List.isEmpty_iff] using h)]
  refine ⟨_, rfl, ?_, ?_⟩
  · intro hall
    have hemp : nonAbstaining ests = [] := by
      unfold nonAbstaining
      rw [List.filterMap_eq_nil_iff]
      intro e he
      rw [hall e he]
      rfl
    simp [hemp]
  · rintro ⟨e, he, hp⟩
    obtain ⟨p, hp⟩ := Option.ne_none_iff_exists'.mp hp
    have hmem : (p, e.confidence) ∈ nonAbstaining ests := by
      unfold nonAbstaining
      exact List.mem_filterMap.mpr ⟨e, he, by rw [hp]; rfl⟩
    have hne : ¬ (nonAbstaining ests).isEmpty := by
      simp [List.isEmpty_iff, List.ne_nil_of_mem hmem]
    simp [hne]

/-- C5 witness: a single all-abstaining estimator yields the flagged, null-
polarity TrackScore, and a single non-abstaining one the weighted-mean
polarity. -/
theorem combine_abstention_policy_witness :
    (∃ ts, combine [{ polarity := none, confidence := 1, emotions := [] }] = .ok ts ∧
      ((∀ e ∈ [({ polarity := none, confidence := 1, emotions := [] } : EstimatorOutput)],
          e.polarity = none) →
        ts.combinedPolarity = none ∧ ts.neutralUnscored = true) ∧
      ((∃ e ∈ [({ polarity := none, confidence := 1, emotions := [] } : EstimatorOutput)],
          e.polarity ≠ none) →
        ts.combinedPolarity =
          some (weightedMean (nonAbstaining
            [{ polarity := none, confidence := 1, emotions := [] }])) ∧
        ts.neutralUnscored = false)) ∧
    (∀ e ∈ [({ polarity := none, confidence := 1, emotions := [] } : EstimatorOutput)],
      e.polarity = none) :=
  ⟨combine_abstention_policy _ (by simp), by simp⟩

theorem putScore_self (s : List (ScoreKey × TrackScore)) (k : ScoreKey) (ts : TrackScore) :
    putScore (putScore s k ts) k ts = putScore s k ts := by
  unfold putScore
  rw [List.filter_cons]
  simp [List.filter_filter]

theorem lookupScore_putScore (s : List (ScoreKey × TrackScore)) (k : ScoreKey)
    (ts : TrackScore) : lookupScore (putScore s k ts) k = some ts := by
  unfold lookupScore putScore
  rw [List.find?_cons_of_pos _ (by simp)]
  rfl

theorem countKey_putScore (s : List (ScoreKey × TrackScore)) (k : ScoreKey)
    (ts : TrackScore) : countKey (putScore s k ts) k = 1 := by
  unfold countKey putScore
  rw [List.filter_cons]
  simp [List.filter_filter]

/-- C9: re-running a scoring job with identical inputs and the same ensemble
version is idempotent: `score_track` is deterministic (bit-identical
TrackScore), and the persisted write overwrites rather than appends, leaving
exactly one TrackScore under the (track, context, ensemble-version) key. -/
theorem score_track_idempotent_overwrite (store : List (ScoreKey × TrackScore))
    (k : ScoreKey) (raws : List RawPayload) :
    runScoreJob (runScoreJob store k raws) k raws = runScoreJob store k raws ∧
    (∀ ts₁ ts₂, score_track raws = .ok ts₁ → score_track raws = .ok ts₂ → ts₁ = ts₂) ∧
    (∀ ts, score_track raws = .ok ts →
      lookupScore (runScoreJob store k raws) k = some ts ∧
      countKey (runScoreJob store k raws) k = 1) := by
  refine ⟨?_, ?_, ?_⟩
  · unfold runScoreJob
    cases h : score_track raws with
    | ok ts => exact putScore_self store k ts
    | error e => rfl
  · intro ts₁ ts₂ h1 h2
    rw [h1] at h2
    exact ((Except.ok.injEq _ _).mp h2.symm).symm
  · intro ts h
    unfold runScoreJob
    rw [h]
    exact ⟨lookupScore_putScore store k ts, countKey_putScore store k ts⟩

/-- C9 witness: one concrete job (one rule-based estimator of polarity 1)
run twice over the empty store writes exactly one row, which holds its
bit-identical TrackScore. -/
theorem score_track_idempotent_overwrite_witness :
    runScoreJob (runScoreJob [] { track := "t1", context := "u1", ensembleVersion := "v1" }
        [.rulePolarity (some 1)])
      { track := "t1", context := "u1", ensembleVersion := "v1" } [.rulePolarity (some 1)] =
      runScoreJob [] { track := "t1", context := "u1", ensembleVersion := "v1" }
        [.rulePolarity (some 1)] ∧
    lookupScore (runScoreJob [] { track := "t1", context := "u1", ensembleVersion := "v1" }
        [.rulePolarity (some 1)])
      { track := "t1", context := "u1", ensembleVersion := "v1" } =
      some { combinedPolarity := some 1, neutralUnscored := false, emotions := [],
             agreement := 1 } ∧
    countKey (runScoreJob [] { track := "t1", context := "u1", ensembleVersion := "v1" }
        [.rulePolarity (some 1)])
      { track := "t1", context := "u1", ensembleVersion := "v1" } = 1 := by
  have hok : score_track [.rulePolarity (some 1)] =
      .ok { combinedPolarity := some 1, neutralUnscored := false, emotions := [],
            agreement := 1 } := by
    simp only [score_track, normalizeOrAbstain, normalize, combine, nonAbstaining,
      combinedEmotions, allCategories, lookupEmotion, List.map_cons, List.map_nil,
      List.filterMap_cons, List.filterMap_nil, Option.map_some', List.isEmpty_cons,
      List.find?_nil, Option.map_none']
    norm_num [weightedMean, weightedVar, wsum, wtotal]
  have h := score_track_idempotent_overwrite []
    { track := "t1", context := "u1", ensembleVersion := "v1" } [.rulePolarity (some 1)]
  exact ⟨h.1, (h.2.2 _ hok).1, (h.2.2 _ hok).2⟩

/-- C7: a malformed raw payload — a rule-based payload missing its required
polarity field, or a classifier distribution with a missing field or a
probability outside [0,1] — makes `normalize` signal NormalizationError, and
the pipeline treats that estimator as abstention (null polarity); a non-empty
payload list always yields a TrackScore (never a pipeline failure), and a
well-formed non-abstaining estimator still scores the track (no
`neutral_unscored` flag, combined polarity present). -/
theorem normalization_error_abstains (dist : List LabelProb)
    (hbad : ∃ e ∈ dist, wellFormedEntry e = false) :
    (normalize (.classifier dist) = .error .normalizationError ∧
      (normalizeOrAbstain (.classifier dist)).polarity = none) ∧
    (normalize (.rulePolarity none) = .error .normalizationError ∧
      (normalizeOrAbstain (.rulePolarity none)).polarity = none) ∧
    (∀ raws : List RawPayload, raws ≠ [] → ∃ ts, score_track raws = .ok ts) ∧
    (∀ raws : List RawPayload,
      (∃ r ∈ raws, ∃ p, (normalizeOrAbstain r).polarity = some p) →
      ∀ ts, score_track raws = .ok ts →
        ts.neutralUnscored = false ∧ ts.combinedPolarity ≠ none) := by
  have hcls : normalize (.classifier dist) = .error .normalizationError := by
    simp only [normalize]
    rw [if_neg]
    obtain ⟨e, he, hf⟩ := hbad
    intro hall
    rw [List.all_eq_true] at hall
    rw [hall e he] at hf
    exact Bool.true_eq_false.mp hf
  refine ⟨⟨hcls, ?_⟩, ⟨rfl, rfl⟩, ?_, ?_⟩
  · unfold normalizeOrAbstain
    rw [hcls]
    rfl
  · intro raws hne
    unfold score_track combine
    rw [if_neg (by simpa [List.isEmpty_iff] using hne)]
    exact ⟨_, rfl⟩
  · rintro raws ⟨r, hr, p, hp⟩ ts hts
    have hmem : (p, (normalizeOrAbstain r).confidence) ∈
        nonAbstaining (raws.map normalizeOrAbstain) := by
      unfold nonAbstaining
      exact List.mem_filterMap.mpr
        ⟨normalizeOrAbstain r, List.mem_map_of_mem normalizeOrAbstain hr, by rw [hp]; rfl⟩
    have hemp : ¬ (nonAbstaining (raws.map normalizeOrAbstain)).isEmpty := by
      simp [List.isEmpty_iff, List.ne_nil_of_mem hmem]
    unfold score_track combine at hts
    by_cases hz : (raws.map normalizeOrAbstain).isEmpty
    · rw [if_pos hz] at hts
      exact absurd hts (by simp)
    · rw [if_neg hz] at hts
      have := (Except.ok.injEq _ _).mp hts.symm
      rw [this]
      simp [hemp]

/-- C7 witness: a classifier payload carrying probability 1.3 is rejected
with NormalizationError and abstains, while the track is still scored from
the remaining well-formed estimator (polarity present, no flag). -/
theorem normalization_error_abstains_witness :
    (normalize (.classifier [{ label := some .positive, prob := some (13/10) }]) =
        .error .normalizationError ∧
      (normalizeOrAbstain
        (.classifier [{ label := some .positive, prob := some (13/10) }])).polarity = none) ∧
    (normalize (.rulePolarity none) = .error .normalizationError ∧
      (normalizeOrAbstain (.rulePolarity none)).polarity = none) ∧
    (∃ ts, score_track [.classifier [{ label := some .positive, prob := some (13/10) }],
        .rulePolarity (some (1/2))] = .ok ts) ∧
    (∀ ts, score_track [.classifier [{ label := some .positive, prob := some (13/10) }],
        .rulePolarity (some (1/2))] = .ok ts →
      ts.neutralUnscored = false ∧ ts.combinedPolarity ≠ none) := by
  have h := normalization_error_abstains
    [{ label := some .positive, prob := some (13/10) }]
    ⟨_, List.mem_cons_self _ _, by norm_num [wellFormedEntry]⟩
  refine ⟨h.1, h.2.1, h.2.2.1 _ (by simp), h.2.2.2 _ ?_⟩
  refine ⟨.rulePolarity (some (1/2)), by simp, 1/2, ?_⟩
  rfl

theorem nonAbstaining_mem (ests : List EstimatorOutput) (x : ℚ × ℚ)
    (hx : x ∈ nonAbstaining ests) :
    ∃ e ∈ ests, e.polarity = some x.1 ∧ e.confidence = x.2 := by
  unfold nonAbstaining at hx
  obtain ⟨e, he, hmap⟩ := List.mem_filterMap.mp hx
  cases hp : e.polarity with
  | none => rw [hp] at hmap; exact absurd hmap (by simp)
  | some p =>
    rw [hp] at hmap
    simp only [Option.map_some', Option.some.injEq] at hmap
    exact ⟨e, he, by rw [hp, ← hmap], by rw [← hmap]⟩

theorem scoredListens_mem (xs : List (TrackScore × ℚ)) (x : ℚ × ℚ)
    (hx : x ∈ scoredListens xs) :
    ∃ t ∈ xs, t.1.combinedPolarity = some x.1 ∧ t.2 = x.2 := by
  unfold scoredListens at hx
  obtain ⟨t, ht, hmap⟩ := List.mem_filterMap.mp hx
  cases hp : t.1.combinedPolarity with
  | none => rw [hp] at hmap; exact absurd hmap (by simp)
  | some p =>
    rw [hp] at hmap
    simp only [Option.map_some', Option.some.injEq] at hmap
    exact ⟨t, ht, by rw [hp, ← hmap], by rw [← hmap]⟩

/-- C8: with the EstimatorOutput invariants (each non-abstaining polarity in
[-1,1], each confidence in [0,1]) and at least one non-abstaining estimator,
`combine` produces a combined polarity in [-1,1] and an agreement metric
(1 − normalized variance of the non-abstaining polarities) in [0,1]; and
with the TrackScore invariant every DailyMood produced by `aggregate` from
nonnegatively weighted listens has its mood index in [-1,1]. -/
theorem combine_aggregate_bounded :
    (∀ ests : List EstimatorOutput,
      (∀ e ∈ ests, ∀ p, e.polarity = some p → -1 ≤ p ∧ p ≤ 1) →
      (∀ e ∈ ests, 0 ≤ e.confidence) →
      (∃ e ∈ ests, e.polarity ≠ none) →
      ∀ ts, combine ests = .ok ts →
        (∃ p, ts.combinedPolarity = some p ∧ -1 ≤ p ∧ p ≤ 1) ∧
        0 ≤ ts.agreement ∧ ts.agreement ≤ 1) ∧
    (∀ xs : List (TrackScore × ℚ),
      (∀ x ∈ xs, ∀ p, x.1.combinedPolarity = some p → -1 ≤ p ∧ p ≤ 1) →
      (∀ x ∈ xs, 0 ≤ x.2) →
      ∀ dm, aggregate xs = some dm → -1 ≤ dm.moodIndex ∧ dm.moodIndex ≤ 1) := by
  constructor
  · intro ests hp hc hne ts hts
    have hpvals : ∀ x ∈ nonAbstaining ests, -1 ≤ x.1 ∧ x.1 ≤ 1 := by
      intro x hx
      obtain ⟨e, he, hep, _⟩ := nonAbstaining_mem ests x hx
      exact hp e he x.1 hep
    have hwvals : ∀ x ∈ nonAbstaining ests, 0 ≤ x.2 := by
      intro x hx
      obtain ⟨e, he, _, hec⟩ := nonAbstaining_mem ests x hx
      rw [← hec]
      exact hc e he
    obtain ⟨e, he, hene⟩ := hne
    obtain ⟨p, hep⟩ := Option.ne_none_iff_exists'.mp hene
    have hmem : (p, e.confidence) ∈ nonAbstaining ests :=
      List.mem_filterMap.mpr ⟨e, he, by rw [hep]; rfl⟩
    have hemp : ¬ (nonAbstaining ests).isEmpty := by
      simp [List.isEmpty_iff, List.ne_nil_of_mem hmem]
    unfold combine at hts
    rw [if_neg (by simpa [List.isEmpty_iff] using List.ne_nil_of_mem he)] at hts
    have := (Except.ok.injEq _ _).mp hts.symm
    rw [this]
    have hmb := weightedMean_bounds (nonAbstaining ests) (-1) 1 hpvals hwvals
      (by norm_num) (by norm_num)
    have hv0 := weightedVar_nonneg (nonAbstaining ests) hwvals
    have hv1 := weightedVar_le_one (nonAbstaining ests) hpvals hwvals
    refine ⟨⟨weightedMean (nonAbstaining ests), by simp [hemp], hmb.1, hmb.2⟩, ?_, ?_⟩
    · simp only
      linarith
    · simp only
      linarith
  · intro xs hp hw dm hdm
    have hpvals : ∀ x ∈ scoredListens xs, -1 ≤ x.1 ∧ x.1 ≤ 1 := by
      intro x hx
      obtain ⟨t, ht, htp, _⟩ := scoredListens_mem xs x hx
      exact hp t ht x.1 htp
    have hwvals : ∀ x ∈ scoredListens xs, 0 ≤ x.2 := by
      intro x hx
      obtain ⟨t, ht, _, htw⟩ := scoredListens_mem xs x hx
      rw [← htw]
      exact hw t ht
    unfold aggregate at hdm
    by_cases he : (scoredListens xs).isEmpty
    · rw [if_pos he] at hdm
      exact absurd hdm (by simp)
    · rw [if_neg he] at hdm
      have := (Option.some.injEq _ _).mp hdm.symm
      rw [this]
      exact weightedMean_bounds (scoredListens xs) (-1) 1 hpvals hwvals
        (by norm_num) (by norm_num)

/-- C8 witness: one estimator of polarity 1/2 and confidence 1 gives a
combined polarity in [-1,1] and agreement in [0,1], and one scored listen of
polarity 1/2 and weight 2 gives a mood index in [-1,1]. -/
theorem combine_aggregate_bounded_witness :
    ((∃ p, (some (1/2) : Option ℚ) = some p ∧ -1 ≤ p ∧ p ≤ 1) ∧
      (0 : ℚ) ≤ 1 ∧ (1 : ℚ) ≤ 1) ∧
    (-1 ≤ (1/2 : ℚ) ∧ (1/2 : ℚ) ≤ 1) := by
  have hts : combine [{ polarity := some (1/2), confidence := 1, emotions := [] }] =
      .ok { combinedPolarity := some (1/2), neutralUnscored := false, emotions := [],
            agreement := 1 } := by
    simp only [combine, nonAbstaining, combinedEmotions, allCategories, lookupEmotion,
      List.filterMap_cons, List.filterMap_nil, Option.map_some', List.isEmpty_cons,
      List.find?_nil, Option.map_none', List.map_cons, List.map_nil]
    norm_num [weightedMean, weightedVar, wsum, wtotal]
  have hdm : aggregate [({ combinedPolarity := some (1/2), neutralUnscored := false,
                           emotions := [], agreement := 1 }, 2)] =
      some { moodIndex := 1/2, dominantEmotion := none, contributingTrackCount := 1 } := by
    simp only [aggregate, scoredListens, dominantEmotion, pickDominant, dayIntensity,
      lookupEmotion, allCategories, List.filterMap_cons, List.filterMap_nil,
      Option.map_some', Option.map_none', List.isEmpty_cons, List.find?_nil,
      List.length_cons, List.length_nil]
    norm_num [weightedMean, wsum, wtotal]
  have h1 := combine_aggregate_bounded.1
    [{ polarity := some (1/2), confidence := 1, emotions := [] }]
    (by intro e he p hp; simp at he; rw [he] at hp; simp at hp; rw [← hp]; norm_num)
    (by intro e he; simp at he; rw [he]; norm_num)
    ⟨_, List.mem_cons_self _ _, by simp⟩ _ hts
  have h2 := combine_aggregate_bounded.2
    [({ combinedPolarity := some (1/2), neutralUnscored := false, emotions := [],
          agreement := 1 }, 2)]
    (by intro x hx p hp; simp at hx; rw [hx] at hp; simp at hp; rw [← hp]; norm_num)
    (by intro x hx; simp at hx; rw [hx]; norm_num)
    _ hdm
  exact ⟨h1, h2⟩

theorem mem_allCategories (c : Emotion) : c ∈ allCategories := by
  cases c <;> simp [allCategories]

theorem pickDominant_none (xs : List (TrackScore × ℚ)) :
    ∀ cs : List Emotion, pickDominant xs cs = none → ∀ c ∈ cs, dayIntensity xs c = none := by
  intro cs
  induction cs with
  | nil => intro _ c hc; exact absurd hc (by simp)
  | cons d tail ihr =>
    intro h
    rw [pickDominant] at h
    cases hr : pickDominant xs tail with
    | none =>
      rw [hr] at h
      cases hd : dayIntensity xs d with
      | none =>
        intro e he
        rcases List.mem_cons.mp he with rfl | hm
        · exact hd
        · exact ihr hr e hm
      | some w =>
        rw [hd] at h
        simp only [] at h
        exact absurd h (by simp)
    | some bw =>
      obtain ⟨b2, bv2⟩ := bw
      rw [hr] at h
      cases hd : dayIntensity xs d with
      | none =>
        rw [hd] at h
        simp only [] at h
        exact absurd h (by simp)
      | some w =>
        rw [hd] at h
        simp only [] at h
        split at h <;> exact absurd h (by simp)

theorem pickDominant_sound (xs : List (TrackScore × ℚ)) :
    ∀ (cs : List Emotion) (b : Emotion) (bv : ℚ),
    pickDominant xs cs = some (b, bv) →
    dayIntensity xs b = some bv ∧
      ∀ c ∈ cs, ∀ v, dayIntensity xs c = some v →
        v ≤ bv ∧ (v = bv → priorityRank b ≤ priorityRank c) := by
  intro cs
  induction cs with
  | nil => intro b bv h; exact absurd h (by simp [pickDominant])
  | cons c rest ih =>
    intro b bv h
    rw [pickDominant] at h
    cases hr : pickDominant xs rest with
    | none =>
      rw [hr] at h
      cases hd : dayIntensity xs c with
      | none =>
        rw [hd] at h
        simp only [] at h
        exact absurd h (by simp)
      | some v =>
        rw [hd] at h
        simp only [Option.some.injEq, Prod.mk.injEq] at h
        obtain ⟨rfl, rfl⟩ := h
        refine ⟨hd, ?_⟩
        intro e he w hw
        rcases List.mem_cons.mp he with rfl | hm
        · rw [hd] at hw
          simp only [Option.some.injEq] at hw
          subst hw
          exact ⟨le_refl _, fun _ => le_refl _⟩
        · rw [pickDominant_none xs rest hr e hm] at hw
          exact absurd hw (by simp)
    | some bw =>
      obtain ⟨b0, bv0⟩ := bw
      rw [hr] at h
      have ih2 := ih b0 bv0 hr
      cases hd : dayIntensity xs c with
      | none =>
        rw [hd] at h
        simp only [Option.some.injEq, Prod.mk.injEq] at h
        obtain ⟨rfl, rfl⟩ := h
        refine ⟨ih2.1, ?_⟩
        intro e he w hw
        rcases List.mem_cons.mp he with rfl | hm
        · rw [hd] at hw
          exact absurd hw (by simp)
        · exact ih2.2 e hm w hw
      | some v =>
        rw [hd] at h
        simp only [] at h
        by_cases hcond : bv0 < v ∨ (bv0 = v ∧ priorityRank c < priorityRank b0)
        · rw [if_pos hcond] at h
          simp only [Option.some.injEq, Prod.mk.injEq] at h
          obtain ⟨rfl, rfl⟩ := h
          refine ⟨hd, ?_⟩
          intro e he w hw
          rcases List.mem_cons.mp he with rfl | hm
          · rw [hd] at hw
            simp only [Option.some.injEq] at hw
            subst hw
            exact ⟨le_refl _, fun _ => le_refl _⟩
          · have hrest := ih2.2 e hm w hw
            rcases hcond with hlt | hc2
            · refine ⟨le_trans hrest.1 (le_of_lt hlt), fun hvb => ?_⟩
              exact absurd (lt_of_le_of_lt (hvb ▸ hrest.1) hlt) (lt_irrefl _)
            · obtain ⟨heq, hrk⟩ := hc2
              refine ⟨heq ▸ hrest.1, fun hvb => ?_⟩
              exact le_trans (le_of_lt hrk) (hrest.2 (hvb.trans heq.symm))
        · rw [if_neg hcond] at h
          simp only [Option.some.injEq, Prod.mk.injEq] at h
          obtain ⟨rfl, rfl⟩ := h
          push_neg at hcond
          refine ⟨ih2.1, ?_⟩
          intro e he w hw
          rcases List.mem_cons.mp he with rfl | hm
          · rw [hd] at hw
            simp only [Option.some.injEq] at hw
            subst hw
            exact ⟨hcond.1, fun hvb => hcond.2 hvb.symm⟩
          · exact ih2.2 e hm w hw

/-- C2 (amended): the dominant emotion of a day is a category whose
listen_weight-weighted mean intensity is maximal, and any other category
attaining the same maximal intensity has strictly lower §4.3 priority
(joy > optimism > love > surprise > sadness > fear > disgust > anger); the
claim's parenthetical identification of this order with the earliest-listed
tie-break of the §3 category order is dropped, as the two orders disagree. -/
theorem dominant_emotion_max_priority (xs : List (TrackScore × ℚ)) (b : Emotion)
    (h : dominantEmotion xs = some b) :
    ∃ bv, dayIntensity xs b = some bv ∧
      ∀ c v, dayIntensity xs c = some v →
        v ≤ bv ∧ (v = bv → priorityRank b ≤ priorityRank c) := by
  unfold dominantEmotion at h
  cases hp : pickDominant xs allCategories with
  | none => rw [hp] at h; exact absurd h (by simp)
  | some bw =>
    obtain ⟨b0, bv⟩ := bw
    rw [hp] at h
    simp only [Option.map_some', Option.some.injEq] at h
    subst h
    have hs := pickDominant_sound xs allCategories b0 bv hp
    exact ⟨bv, hs.1, fun c v hv => hs.2 c (mem_allCategories c) v hv⟩

/-- C2 witness: a single listen exposing sadness and optimism both at
intensity 1/2 has dominant emotion optimism, which is maximal and of minimal
priority rank among the tied categories. -/
theorem dominant_emotion_max_priority_witness :
    ∃ bv, dayIntensity
        [({ combinedPolarity := some 0, neutralUnscored := false,
            emotions := [(Emotion.sadness, 1/2), (Emotion.optimism, 1/2)],
            agreement := 1 }, 1)] Emotion.optimism = some bv ∧
      ∀ c v, dayIntensity
          [({ combinedPolarity := some 0, neutralUnscored := false,
              emotions := [(Emotion.sadness, 1/2), (Emotion.optimism, 1/2)],
              agreement := 1 }, 1)] c = some v →
        v ≤ bv ∧ (v = bv → priorityRank Emotion.optimism ≤ priorityRank c) := by
  apply dominant_emotion_max_priority
  simp [dominantEmotion, pickDominant, allCategories, dayIntensity, lookupEmotion,
    weightedMean, wsum, wtotal, priorityRank]

/-- C2 counterexample: on an exact intensity tie between sadness and
optimism the §4.3 priority order picks optimism while the §3 earliest-listed
order picks sadness, so the two tie-break descriptions conjoined by the
claim disagree on this input. -/
theorem dominant_tie_orders_disagree :
    dominantEmotion
        [({ combinedPolarity := some 0, neutralUnscored := false,
            emotions := [(Emotion.sadness, 1/2), (Emotion.optimism, 1/2)],
            agreement := 1 }, 1)] = some Emotion.optimism ∧
    dominantEmotionListed
        [({ combinedPolarity := some 0, neutralUnscored := false,
            emotions := [(Emotion.sadness, 1/2), (Emotion.optimism, 1/2)],
            agreement := 1 }, 1)] = some Emotion.sadness ∧
    dayIntensity
        [({ combinedPolarity := some 0, neutralUnscored := false,
            emotions := [(Emotion.sadness, 1/2), (Emotion.optimism, 1/2)],
            agreement := 1 }, 1)] Emotion.sadness =
      dayIntensity
        [({ combinedPolarity := some 0, neutralUnscored := false,
            emotions := [(Emotion.sadness, 1/2), (Emotion.optimism, 1/2)],
            agreement := 1 }, 1)] Emotion.optimism ∧
    (some Emotion.optimism ≠ some Emotion.sadness) := by
  refine ⟨?_, ?_, ?_, by simp⟩
  · simp [dominantEmotion, pickDominant, allCategories, dayIntensity, lookupEmotion,
      weightedMean, wsum, wtotal, priorityRank]
  · simp [dominantEmotionListed, pickDominantListed, allCategories, dayIntensity,
      lookupEmotion, weightedMean, wsum, wtotal, listedRank]
  · simp [dayIntensity, lookupEmotion, weightedMean, wsum, wtotal]

theorem two_sqrt_lt_abs_iff (x v : ℝ) (hv : 0 ≤ v) :
    2 * Real.sqrt v < |x| ↔ 2 ^ 2 * v < x ^ 2 := by
  have h2 : 2 * Real.sqrt v = Real.sqrt (2 ^ 2 * v) := by
    rw [Real.sqrt_mul (by norm_num) v, Real.sqrt_sq (by norm_num : (0:ℝ) ≤ 2)]
  rw [h2]
  by_cases hx : x = 0
  · subst hx
    have h0 : (0:ℝ) ^ 2 = 0 := by norm_num
    rw [abs_zero, h0]
    constructor
    · intro h
      exact absurd h (not_lt.mpr (Real.sqrt_nonneg _))
    · intro h
      exact absurd h (not_lt.mpr (by positivity))
  · rw [Real.sqrt_lt' (abs_pos.mpr hx), sq_abs]

/-- C4: the rolling baseline statistics that decide the issue day's anomaly
flag are computed excluding the issue day: two histories differing only in
the final day's record have identical baseline mean and variance (hence an
identical anomaly threshold), and whenever `forecast_next` succeeds its flag
is true exactly when |today's mood index − rolling mean| exceeds 2 rolling
standard deviations. -/
theorem anomaly_baseline_no_leakage (pre : List DailyMood) (d1 d2 : DailyMood) :
    (baselineMean (pre ++ [d1]) = baselineMean (pre ++ [d2]) ∧
      baselineVar (pre ++ [d1]) = baselineVar (pre ++ [d2])) ∧
    (∀ d r, forecast_next (pre ++ [d]) = .ok r →
      (r.anomalyFlag = true ↔
        2 * Real.sqrt ((baselineVar (pre ++ [d]) : ℚ) : ℝ) <
          |((d.moodIndex : ℚ) : ℝ) - ((baselineMean (pre ++ [d]) : ℚ) : ℝ)|)) := by
  have hser : ∀ x : DailyMood, baselineSeries (pre ++ [x]) =
      (pre.reverse.take baselineWindowDays).map DailyMood.moodIndex := by
    intro x
    unfold baselineSeries
    rw [List.dropLast_concat]
  constructor
  · constructor
    · unfold baselineMean
      rw [hser d1, hser d2]
    · unfold baselineVar
      rw [hser d1, hser d2]
  · intro d r hr
    unfold forecast_next at hr
    by_cases hlen : (pre ++ [d]).length < minHistoryDays
    · rw [if_pos hlen] at hr
      exact absurd hr (by simp)
    · rw [if_neg hlen, List.getLast?_concat] at hr
      simp only [] at hr
      have hrr := (Except.ok.injEq _ _).mp hr
      subst hrr
      simp only [decide_eq_true_eq]
      have hv : (0:ℝ) ≤ ((baselineVar (pre ++ [d]) : ℚ) : ℝ) := by
        exact_mod_cast listVar_nonneg (baselineSeries (pre ++ [d]))
      rw [two_sqrt_lt_abs_iff _ _ hv]
      unfold anomalyThreshold
      constructor
      · intro h
        exact_mod_cast h
      · intro h
        exact_mod_cast h

/-- C4 witness: on a flat 13-day history, replacing the issue day's record
leaves the baseline statistics unchanged, and the issue day's flag is false
exactly as |0 − 0| does not exceed 2·√0. -/
theorem anomaly_baseline_no_leakage_witness :
    (baselineMean (List.replicate 13
          ({ moodIndex := 0, dominantEmotion := none, contributingTrackCount := 1 } :
            DailyMood) ++
        [{ moodIndex := 0, dominantEmotion := none, contributingTrackCount := 1 }]) =
      baselineMean (List.replicate 13
          ({ moodIndex := 0, dominantEmotion := none, contributingTrackCount := 1 } :
            DailyMood) ++
        [{ moodIndex := 1, dominantEmotion := none, contributingTrackCount := 1 }]) ∧
      baselineVar (List.replicate 13
          ({ moodIndex := 0, dominantEmotion := none, contributingTrackCount := 1 } :
            DailyMood) ++
        [{ moodIndex := 0, dominantEmotion := none, contributingTrackCount := 1 }]) =
      baselineVar (List.replicate 13
          ({ moodIndex := 0, dominantEmotion := none, contributingTrackCount := 1 } :
            DailyMood) ++
        [{ moodIndex := 1, dominantEmotion := none, contributingTrackCount := 1 }])) ∧
    (({ point := 0, lo := 0, hi := 0, anomalyFlag := false, baselineMean := 0,
        baselineVar := 0, windowLen := 13 } : ForecastResult).anomalyFlag = true ↔
      2 * Real.sqrt ((baselineVar (List.replicate 13
            ({ moodIndex := 0, dominantEmotion := none, contributingTrackCount := 1 } :
              DailyMood) ++
          [{ moodIndex := 0, dominantEmotion := none, contributingTrackCount := 1 }]) :
          ℚ) : ℝ) <
        |((({ moodIndex := 0, dominantEmotion := none, contributingTrackCount := 1 } :
              DailyMood).moodIndex : ℚ) : ℝ) -
          ((baselineMean (List.replicate 13
                ({ moodIndex := 0, dominantEmotion := none, contributingTrackCount := 1 } :
                  DailyMood) ++
              [{ moodIndex := 0, dominantEmotion := none, contributingTrackCount := 1 }]) :
              ℚ) : ℝ)|) := by
  have h := anomaly_baseline_no_leakage
    (List.replicate 13
      ({ moodIndex := 0, dominantEmotion := none, contributingTrackCount := 1 } : DailyMood))
    { moodIndex := 0, dominantEmotion := none, contributingTrackCount := 1 }
    { moodIndex := 1, dominantEmotion := none, contributingTrackCount := 1 }
  refine ⟨h.1, h.2
    { moodIndex := 0, dominantEmotion := none, contributingTrackCount := 1 }
    { point := 0, lo := 0, hi := 0, anomalyFlag := false, baselineMean := 0,
      baselineVar := 0, windowLen := 13 } ?_⟩
  have hser : baselineSeries (List.replicate 13
      ({ moodIndex := 0, dominantEmotion := none, contributingTrackCount := 1 } :
        DailyMood) ++
      [{ moodIndex := 0, dominantEmotion := none, contributingTrackCount := 1 }]) =
      List.replicate 13 (0:ℚ) := by
    unfold baselineSeries
    rw [List.dropLast_concat]
    simp [baselineWindowDays, List.take_replicate]
  unfold forecast_next
  rw [if_neg (by simp [minHistoryDays]), List.getLast?_concat]
  simp only [baselineMean, baselineVar, hser]
  norm_num [listMean, listVar, anomalyThreshold, List.map_replicate, List.sum_replicate]

/-- C3: `forecast_next` fails with InsufficientHistoryError on every history
of fewer than 14 DailyMood records and returns a ForecastResult on every
history of at least 14 records. -/
theorem forecast_min_history (history : List DailyMood) :
    (history.length < 14 → forecast_next history = .error .insufficientHistory) ∧
    (14 ≤ history.length → ∃ r, forecast_next history = .ok r) := by
  constructor
  · intro h
    unfold forecast_next
    rw [if_pos]
    exact h
  · intro h
    unfold forecast_next
    rw [if_neg (by simp only [minHistoryDays]; omega)]
    have hne : history ≠ [] := by
      intro he
      rw [he] at h
      simp at h
    obtain ⟨today, htoday⟩ := Option.isSome_iff_exists.mp (List.getLast?_isSome.mpr hne)
    rw [htoday]
    exact ⟨_, rfl⟩

/-- C3 witness: with exactly 13 records `forecast_next` returns
InsufficientHistoryError; with 14 it returns a result. -/
theorem forecast_min_history_witness :
    forecast_next (List.replicate 13
        { moodIndex := 0, dominantEmotion := none, contributingTrackCount := 1 }) =
      .error .insufficientHistory ∧
    ∃ r, forecast_next (List.replicate 14
        { moodIndex := 0, dominantEmotion := none, contributingTrackCount := 1 }) = .ok r :=
  ⟨(forecast_min_history _).1 (by simp), (forecast_min_history _).2 (by simp)⟩

end MoodSync
